import Mathlib

/-!
Shallow embedding of the dynamic value model of `rust-protobuf`:
the validated-text byte view `Chars` (src/protobuf/src/chars.rs) and the
variant-typed map container `DynamicMap`
(src/protobuf/src/reflect/dynamic/map.rs), together with proofs of the
specified properties.

Bytes are modelled as `Nat` (each source byte is `< 256`; the UTF-8
decoder rejects anything `≥ 0xF5` outright, so no extra bound is needed
for the theorems).  A `Bytes` buffer (crate `bytes`) is a reference-counted
window into a shared allocation; we model it as a record of the shared
buffer contents together with the window bounds, so that zero-copy slicing
and the no-shared-mutation property are expressible.  Fallible operations
return `Option`/`Except`; an operation that panics in Rust is modelled as
returning `none`.
-/

namespace RustProtobuf

/-- Is `b` a UTF-8 continuation byte (`0x80..=0xBF`)?  Mirrors the byte-class
test used by `core::str`'s UTF-8 validation, which `str::from_utf8` (called
by `Chars::from_bytes`) relies on. -/
def contB (b : Nat) : Bool := decide (0x80 ≤ b) && decide (b < 0xC0)

/-- Second-byte constraint of a three-byte UTF-8 sequence headed by `b0`,
exactly as in `core::str`'s validation table: lead `0xE0` requires
`0xA0..=0xBF` (no overlong forms), lead `0xED` requires `0x80..=0x9F`
(no surrogates), all other leads require a plain continuation byte. -/
def utf3ok (b0 b1 : Nat) : Bool :=
  if b0 = 0xE0 then decide (0xA0 ≤ b1) && decide (b1 < 0xC0)
  else if b0 = 0xED then decide (0x80 ≤ b1) && decide (b1 < 0xA0)
  else contB b1

/-- Second-byte constraint of a four-byte UTF-8 sequence headed by `b0`,
exactly as in `core::str`'s validation table: lead `0xF0` requires
`0x90..=0xBF` (no overlong forms), lead `0xF4` requires `0x80..=0x8F`
(code points stop at `0x10FFFF`), other leads require a continuation byte. -/
def utf4ok (b0 b1 : Nat) : Bool :=
  if b0 = 0xF0 then decide (0x90 ≤ b1) && decide (b1 < 0xC0)
  else if b0 = 0xF4 then decide (0x80 ≤ b1) && decide (b1 < 0x90)
  else contB b1

/-- One step of UTF-8 decoding: reads the first encoded scalar value and
returns it with the remaining bytes, or `none` if the head of the input is
not a well-formed UTF-8 sequence.  The byte-range table is exactly the one
`core::str`'s validation uses: ASCII `0x00..=0x7F`, two-byte leads
`0xC2..=0xDF`, three-byte leads `0xE0..=0xEF` with the `utf3ok`
second-byte constraint, four-byte leads `0xF0..=0xF4` with the `utf4ok`
second-byte constraint; `0x80..=0xC1` and `0xF5..` never start a
sequence. -/
def decodeChar : List Nat → Option (Nat × List Nat)
  | [] => none
  | b0 :: rest =>
    if b0 < 0x80 then some (b0, rest)
    else if b0 < 0xC2 then none
    else if b0 < 0xE0 then
      match rest with
      | b1 :: rest1 =>
        if contB b1 then some ((b0 - 0xC0) * 0x40 + (b1 - 0x80), rest1) else none
      | [] => none
    else if b0 < 0xF0 then
      match rest with
      | b1 :: b2 :: rest2 =>
        if utf3ok b0 b1 && contB b2 then
          some (((b0 - 0xE0) * 0x40 + (b1 - 0x80)) * 0x40 + (b2 - 0x80), rest2)
        else none
      | _ => none
    else if b0 < 0xF5 then
      match rest with
      | b1 :: b2 :: b3 :: rest3 =>
        if utf4ok b0 b1 && contB b2 && contB b3 then
          some ((((b0 - 0xF0) * 0x40 + (b1 - 0x80)) * 0x40 + (b2 - 0x80)) * 0x40 + (b3 - 0x80),
            rest3)
        else none
      | _ => none
    else none

/-- A successful decoding step consumes at least one byte. -/
theorem decodeChar_length_lt (l : List Nat) (c : Nat) (r : List Nat)
    (h : decodeChar l = some (c, r)) : r.length < l.length := by
  rcases l with _ | ⟨b0, _ | ⟨b1, _ | ⟨b2, _ | ⟨b3, rest⟩⟩⟩⟩ <;>
    rw [decodeChar.eq_def] at h <;> dsimp only at h <;>
    first
      | (split_ifs at h <;> simp_all <;> omega)
      | simp at h

/-- Fuel-indexed iteration of `decodeChar`; since every step consumes at
least one byte, fuel equal to the input length always suffices
(`decodeUtf8Fuel_congr`).  Structural recursion on the fuel keeps the
function kernel-computable. -/
def decodeUtf8Fuel : Nat → List Nat → Option (List Nat)
  | _, [] => some []
  | 0, _ :: _ => none
  | n + 1, b0 :: rest =>
    match decodeChar (b0 :: rest) with
    | none => none
    | some (c, r) => (decodeUtf8Fuel n r).map (fun cs => c :: cs)

/-- UTF-8 decoding of a whole byte sequence into its list of scalar values.
`some cs` means the bytes are valid UTF-8 with text content `cs`;
`none` means validation fails.  This is the embedding of
`str::from_utf8` (validation plus the text interpretation of the bytes). -/
def decodeUtf8 (l : List Nat) : Option (List Nat) := decodeUtf8Fuel l.length l

/-- Validity of a byte sequence as UTF-8: the Boolean outcome of
`str::from_utf8`'s scan. -/
def validUtf8 (l : List Nat) : Bool := (decodeUtf8 l).isSome

/-- A Unicode scalar value: below `0x110000` and not a surrogate.
This is the invariant of Rust's `char`, hence of every code point of a
Rust `String`. -/
def IsScalar (c : Nat) : Prop := c < 0x110000 ∧ ¬(0xD800 ≤ c ∧ c < 0xE000)

instance (c : Nat) : Decidable (IsScalar c) := by unfold IsScalar; infer_instance

/-- UTF-8 encoding of one scalar value, as Rust's `char::encode_utf8`
produces it (and as a Rust `String` stores its text). -/
def encodeChar (c : Nat) : List Nat :=
  if c < 0x80 then [c]
  else if c < 0x800 then [0xC0 + c / 0x40, 0x80 + c % 0x40]
  else if c < 0x10000 then
    [0xE0 + c / 0x1000, 0x80 + c / 0x40 % 0x40, 0x80 + c % 0x40]
  else
    [0xF0 + c / 0x40000, 0x80 + c / 0x1000 % 0x40, 0x80 + c / 0x40 % 0x40, 0x80 + c % 0x40]

/-- UTF-8 encoding of a sequence of scalar values: the byte content of a
Rust `String` whose text is `s`. -/
def encodeUtf8 (s : List Nat) : List Nat := (s.map encodeChar).flatten

/-- The error type of failed UTF-8 validation (`std::str::Utf8Error`).
Its payload (`valid_up_to` etc.) is irrelevant to the verified
properties, so it is modelled as a single value. -/
inductive Utf8Error where
  | invalid
deriving DecidableEq

/-- Decidable equality for `Except`, needed to evaluate the fallible
`Chars` operations on concrete inputs. -/
instance {ε α : Type} [DecidableEq ε] [DecidableEq α] : DecidableEq (Except ε α) := fun a b =>
  match a, b with
  | .ok x, .ok y =>
    if h : x = y then .isTrue (by rw [h]) else .isFalse (by intro hc; cases hc; exact h rfl)
  | .error x, .error y =>
    if h : x = y then .isTrue (by rw [h]) else .isFalse (by intro hc; cases hc; exact h rfl)
  | .ok _, .error _ => .isFalse (by intro hc; cases hc)
  | .error _, .ok _ => .isFalse (by intro hc; cases hc)

/-- A `bytes::Bytes` buffer: a reference-counted window `[start, stop)`
into a shared allocation `buf`.  Two values with the same `buf` model two
handles sharing one allocation.  `Bytes::clear` (via `truncate(0)`) empties
the handle's own window and never writes the shared allocation. -/
structure BytesV where
  buf : List Nat
  start : Nat
  stop : Nat
deriving DecidableEq

namespace BytesV

/-- Well-formedness of a window: it lies inside the allocation. -/
def WF (b : BytesV) : Prop := b.start ≤ b.stop ∧ b.stop ≤ b.buf.length

instance (b : BytesV) : Decidable (b.WF) := by unfold WF; infer_instance

/-- The byte content the handle exposes (what `&bytes[..]` reads). -/
def read (b : BytesV) : List Nat := (b.buf.drop b.start).take (b.stop - b.start)

/-- Embeds `Bytes::new()`: an empty buffer. -/
def new : BytesV := ⟨[], 0, 0⟩

/-- A `Bytes` owning exactly the bytes `l` (e.g. `Bytes::from(vec)`). -/
def ofList (l : List Nat) : BytesV := ⟨l, 0, l.length⟩

/-- Embeds `Bytes::len`. -/
def len (b : BytesV) : Nat := b.stop - b.start

/-- Embeds `Bytes::slice(s..e)`: zero-copy sub-window over the same allocation.
Panics (modelled `none`) unless `s ≤ e` and `e ≤ len`. -/
def slice (b : BytesV) (s e : Nat) : Option BytesV :=
  if s ≤ e ∧ e ≤ b.len then some ⟨b.buf, b.start + s, b.start + e⟩ else none

/-- Embeds `Bytes::clear` = `truncate(0)`: the handle's own window becomes empty;
the shared allocation is untouched. -/
def clear (b : BytesV) : BytesV := ⟨b.buf, b.start, b.start⟩

end BytesV

/-- The `Chars` type: thin wrapper around `Bytes` whose content is guaranteed valid
UTF-8 (src/protobuf/src/chars.rs).  The invariant is established at
construction and carried as a hypothesis where a theorem needs it. -/
structure Chars where
  bytes : BytesV
deriving DecidableEq

namespace Chars

/-- The UTF-8 validity invariant of a `Chars` value, plus window
well-formedness of its `Bytes`. -/
def Valid (c : Chars) : Prop := c.bytes.WF ∧ validUtf8 c.bytes.read = true

instance (c : Chars) : Decidable (c.Valid) := by unfold Valid; infer_instance

/-- Embeds `Chars::new()`. -/
def new : Chars := ⟨BytesV.new⟩

/-- Embeds `Chars::clear`: `self.0.clear()`. -/
def clear (c : Chars) : Chars := ⟨c.bytes.clear⟩

/-- Embeds `Chars::from_bytes`: runs `str::from_utf8` over the buffer, keeping the
same buffer on success. -/
def from_bytes (b : BytesV) : Except Utf8Error Chars :=
  if validUtf8 b.read then Except.ok ⟨b⟩ else Except.error Utf8Error.invalid

/-- Embeds `Chars::len` (in bytes). -/
def len (c : Chars) : Nat := c.bytes.len

/-- Embeds `Chars::is_empty`. -/
def is_empty (c : Chars) : Bool := decide (c.bytes.len = 0)

/-- The text content of a `Chars` read through its `str` interpretation
(`Deref`/`Borrow`, via `str::from_utf8_unchecked`): the UTF-8 decoding of
its bytes, defined (`some`) exactly when the invariant holds. -/
def text (c : Chars) : Option (List Nat) := decodeUtf8 c.bytes.read

/-- Embeds `Chars::byte_slice(range)`: `Self(self.0.slice(range))`.  Zero-copy, no
re-validation; `none` models the panic of `Bytes::slice` on an
out-of-bounds range. -/
def byte_slice (c : Chars) (s e : Nat) : Option Chars :=
  (c.bytes.slice s e).map Chars.mk

/-- Embeds `Chars::checked_byte_slice(range)`: slices like `byte_slice`, then
re-runs `from_bytes` on the sub-buffer.  The outer `none` models the panic
of `Bytes::slice` on an out-of-bounds range. -/
def checked_byte_slice (c : Chars) (s e : Nat) : Option (Except Utf8Error Chars) :=
  (c.bytes.slice s e).map from_bytes

/-- Embeds `impl From<String> for Chars`: `Chars(Bytes::from(src))` — the view
takes over the string's UTF-8 byte buffer.  A Rust `String` is modelled by
its list of scalar values; its byte buffer is their UTF-8 encoding. -/
def fromString (s : List Nat) : Chars := ⟨BytesV.ofList (encodeUtf8 s)⟩

/-- Embeds `impl Into<String> for Chars`:
`String::from_utf8_unchecked(self.0.as_ref().to_owned())` — the owned
string whose bytes are the view's bytes; its text (list of scalar values)
is the UTF-8 decoding of those bytes, defined exactly when the invariant
holds. -/
def intoString (c : Chars) : Option (List Nat) := decodeUtf8 c.bytes.read

end Chars

/-- Modelled from the spec: the Runtime Type Tag (`RuntimeTypeBox`), a
closed enumeration of the supported schema-level kinds — 32/64-bit signed
and unsigned integers, floating point of each width, boolean, text, byte
blob, enum, nested message-by-descriptor.  (Its definition is outside the
provided sources; only `reflect/dynamic/map.rs` uses it here, and only as
a discriminator, so payload-free arms suffice.) -/
inductive RuntimeTypeBox where
  | I32
  | I64
  | U32
  | U64
  | F32
  | F64
  | Bool
  | String
  | VecU8
  | Enum
  | Message
deriving DecidableEq

/-- Modelled from the spec: the Owned Dynamic Value (`ReflectValueBox`),
one arm per Runtime Type Tag, holding an owned payload.  (Its definition
is outside the provided sources.)  Machine integers are modelled as
`Nat`/`Int` and text/byte payloads as `List Nat`; the map container only
compares and stores these payloads, so representation beyond equality is
irrelevant to the verified properties.  Floating-point payloads are
modelled by their bit patterns, which suffices since only the tag is ever
inspected here. -/
inductive ReflectValueBox where
  | u32 (v : Nat)
  | i32 (v : Int)
  | u64 (v : Nat)
  | i64 (v : Int)
  | f32 (bits : Nat)
  | f64 (bits : Nat)
  | boolV (v : Bool)
  | stringV (v : List Nat)
  | bytes (v : List Nat)
  | enumV (v : Int)
  | message
deriving DecidableEq

namespace ReflectValueBox

/-- Modelled from the spec: every Owned Dynamic Value reports its Runtime
Type Tag in O(1) (`ReflectValueBox::get_type`). -/
def get_type : ReflectValueBox → RuntimeTypeBox
  | .u32 _ => .U32
  | .i32 _ => .I32
  | .u64 _ => .U64
  | .i64 _ => .I64
  | .f32 _ => .F32
  | .f64 _ => .F64
  | .boolV _ => .Bool
  | .stringV _ => .String
  | .bytes _ => .VecU8
  | .enumV _ => .Enum
  | .message => .Message

end ReflectValueBox

/-- Modelled from the spec: the Borrowed Dynamic Value
(`ReflectValueRef`), mirroring the Owned arms with references.  In the
embedding a borrowed value carries the same payload data as the value it
borrows. -/
inductive ReflectValueRef where
  | u32 (v : Nat)
  | i32 (v : Int)
  | u64 (v : Nat)
  | i64 (v : Int)
  | f32 (bits : Nat)
  | f64 (bits : Nat)
  | boolV (v : Bool)
  | stringV (v : List Nat)
  | bytes (v : List Nat)
  | enumV (v : Int)
  | message
deriving DecidableEq

namespace ReflectValueRef

/-- Modelled from the spec: the Runtime Type Tag of a Borrowed Dynamic
Value. -/
def get_type : ReflectValueRef → RuntimeTypeBox
  | .u32 _ => .U32
  | .i32 _ => .I32
  | .u64 _ => .U64
  | .i64 _ => .I64
  | .f32 _ => .F32
  | .f64 _ => .F64
  | .boolV _ => .Bool
  | .stringV _ => .String
  | .bytes _ => .VecU8
  | .enumV _ => .Enum
  | .message => .Message

end ReflectValueRef

/-- Modelled from the spec: `ReflectValueBox::as_value_ref`, the always
zero-copy Owned → Borrowed conversion. -/
def ReflectValueBox.as_value_ref : ReflectValueBox → ReflectValueRef
  | .u32 v => .u32 v
  | .i32 v => .i32 v
  | .u64 v => .u64 v
  | .i64 v => .i64 v
  | .f32 b => .f32 b
  | .f64 b => .f64 b
  | .boolV v => .boolV v
  | .stringV v => .stringV v
  | .bytes v => .bytes v
  | .enumV v => .enumV v
  | .message => .message

/-- Modelled from the spec: the Hashable Dynamic Value
(`ReflectValueBoxHashable`), the subset of Owned Dynamic Value tags usable
as a map key: 32/64-bit signed and unsigned integers, boolean, text. -/
inductive ReflectValueBoxHashable where
  | U32 (v : Nat)
  | I32 (v : Int)
  | U64 (v : Nat)
  | I64 (v : Int)
  | Bool (v : Bool)
  | String (v : List Nat)
deriving DecidableEq

/-- Modelled from the spec: the Runtime Type Tag of a Hashable Dynamic
Value. -/
def ReflectValueBoxHashable.get_type : ReflectValueBoxHashable → RuntimeTypeBox
  | .U32 _ => .U32
  | .I32 _ => .I32
  | .U64 _ => .U64
  | .I64 _ => .I64
  | .Bool _ => .Bool
  | .String _ => .String

/-- The `std::collections::HashMap` type is modelled as an association list without
duplicate keys; `insert` replaces in place or appends, `get` is lookup,
`len` is the entry count.  (Iteration order is irrelevant: no verified
property observes it, matching the spec's scoping-out of iteration.) -/
def hmInsert {κ : Type} [DecidableEq κ] (k : κ) (v : ReflectValueBox) :
    List (κ × ReflectValueBox) → List (κ × ReflectValueBox)
  | [] => [(k, v)]
  | (k', v') :: t => if k = k' then (k, v) :: t else (k', v') :: hmInsert k v t

/-- Embeds `HashMap::get` on the association-list model. -/
def hmGet {κ : Type} [DecidableEq κ] (k : κ) :
    List (κ × ReflectValueBox) → Option ReflectValueBox
  | [] => none
  | (k', v') :: t => if k = k' then some v' else hmGet k t

/-- Abbreviation kept outside the `Maps` namespace: the `Maps.Bool` arm
shadows the builtin `Bool` inside that namespace. -/
abbrev BoolTy := Bool

/-- The `Maps` enum of `DynamicMap`
(src/protobuf/src/reflect/dynamic/map.rs): exactly one concrete hash map,
one arm per hashable key type. -/
inductive Maps where
  | U32 (m : List (Nat × ReflectValueBox))
  | I32 (m : List (Int × ReflectValueBox))
  | U64 (m : List (Nat × ReflectValueBox))
  | I64 (m : List (Int × ReflectValueBox))
  | Bool (m : List (Bool × ReflectValueBox))
  | String (m : List (List Nat × ReflectValueBox))
deriving DecidableEq

namespace Maps

/-- Embeds `Maps::len`. -/
def len : Maps → Nat
  | .U32 m => m.length
  | .I32 m => m.length
  | .U64 m => m.length
  | .I64 m => m.length
  | .Bool m => m.length
  | .String m => m.length

/-- Embeds `Maps::is_empty`. -/
def is_empty : Maps → BoolTy
  | .U32 m => m.isEmpty
  | .I32 m => m.isEmpty
  | .U64 m => m.isEmpty
  | .I64 m => m.isEmpty
  | .Bool m => m.isEmpty
  | .String m => m.isEmpty

/-- Embeds `Maps::clear`. -/
def clear : Maps → Maps
  | .U32 _ => .U32 []
  | .I32 _ => .I32 []
  | .U64 _ => .U64 []
  | .I64 _ => .I64 []
  | .Bool _ => .Bool []
  | .String _ => .String []

/-- Embeds `Maps::key_type`. -/
def key_type : Maps → RuntimeTypeBox
  | .U32 _ => .U32
  | .I32 _ => .I32
  | .U64 _ => .U64
  | .I64 _ => .I64
  | .Bool _ => .Bool
  | .String _ => .String

end Maps

/-- The `DynamicMap` struct (src/protobuf/src/reflect/dynamic/map.rs): the declared
value type plus the active concrete map. -/
structure DynamicMap where
  value : RuntimeTypeBox
  maps : Maps
deriving DecidableEq

namespace DynamicMap

/-- Embeds `DynamicMap::new(key, value)`: chooses the map arm by `key`; any
non-hashable key type hits `panic!("type cannot be hashmap key")`,
modelled as `none`. -/
def new (key value : RuntimeTypeBox) : Option DynamicMap :=
  match key with
  | .U32 => some ⟨value, .U32 []⟩
  | .I32 => some ⟨value, .I32 []⟩
  | .U64 => some ⟨value, .U64 []⟩
  | .I64 => some ⟨value, .I64 []⟩
  | .Bool => some ⟨value, .Bool []⟩
  | .String => some ⟨value, .String []⟩
  | _ => none

/-- Embeds `<DynamicMap as ReflectMap>::len`. -/
def len (m : DynamicMap) : Nat := m.maps.len

/-- Embeds `<DynamicMap as ReflectMap>::is_empty`. -/
def is_empty (m : DynamicMap) : Bool := m.maps.is_empty

/-- Embeds `<DynamicMap as ReflectMap>::get`: dispatches on the pairing of
(active arm, key tag); any mismatched pairing falls into the `_ => None`
arm; the found value is borrowed via `as_value_ref`. -/
def get (m : DynamicMap) (key : ReflectValueRef) : Option ReflectValueRef :=
  (match m.maps, key with
    | .U32 mm, .u32 v => hmGet v mm
    | .U64 mm, .u64 v => hmGet v mm
    | .I32 mm, .i32 v => hmGet v mm
    | .I64 mm, .i64 v => hmGet v mm
    | .Bool mm, .boolV v => hmGet v mm
    | .String mm, .stringV v => hmGet v mm
    | _, _ => none).map ReflectValueBox.as_value_ref

/-- Embeds `<DynamicMap as ReflectMap>::insert`: first
`assert!(value.get_type() == self.value)`, then dispatches on
(active arm, key); a mismatched key hits `panic!("wrong key type")`.
Both panics are modelled as `none`; `some` is the updated container. -/
def insert (m : DynamicMap) (key : ReflectValueBoxHashable) (value : ReflectValueBox) :
    Option DynamicMap :=
  if value.get_type = m.value then
    match m.maps, key with
    | .U32 mm, .U32 k => some ⟨m.value, .U32 (hmInsert k value mm)⟩
    | .U64 mm, .U64 k => some ⟨m.value, .U64 (hmInsert k value mm)⟩
    | .I32 mm, .I32 k => some ⟨m.value, .I32 (hmInsert k value mm)⟩
    | .I64 mm, .I64 k => some ⟨m.value, .I64 (hmInsert k value mm)⟩
    | .Bool mm, .Bool k => some ⟨m.value, .Bool (hmInsert k value mm)⟩
    | .String mm, k =>
      match k with
      | .String s => some ⟨m.value, .String (hmInsert s value mm)⟩
      | _ => none
    | _, _ => none
  else none

/-- Embeds `<DynamicMap as ReflectMap>::clear`. -/
def clear (m : DynamicMap) : DynamicMap := ⟨m.value, m.maps.clear⟩

/-- Embeds `<DynamicMap as ReflectMap>::key_type`. -/
def key_type (m : DynamicMap) : RuntimeTypeBox := m.maps.key_type

/-- Embeds `<DynamicMap as ReflectMap>::value_type`. -/
def value_type (m : DynamicMap) : RuntimeTypeBox := m.value

/-- Membership of a Runtime Type Tag in the hashable subset
{u32, i32, u64, i64, bool, string}. -/
def hashableKey : RuntimeTypeBox → Bool
  | .U32 => true
  | .I32 => true
  | .U64 => true
  | .I64 => true
  | .Bool => true
  | .String => true
  | _ => false

end DynamicMap

/-- An abstract operation on a `DynamicMap`, for stating invariants over
arbitrary operation sequences.  `get` takes `&self` in the source and so
leaves the container unchanged. -/
inductive MapOp where
  | getOp (key : ReflectValueRef)
  | insertOp (key : ReflectValueBoxHashable) (value : ReflectValueBox)
  | clearOp
deriving DecidableEq

/-- Run one operation; `none` models a panic aborting the sequence. -/
def runOp (m : DynamicMap) : MapOp → Option DynamicMap
  | .getOp _ => some m
  | .insertOp k v => m.insert k v
  | .clearOp => some (m.clear)

/-- Run a sequence of operations left to right. -/
def runOps (m : DynamicMap) : List MapOp → Option DynamicMap
  | [] => some m
  | op :: t => (runOp m op).bind (fun m' => runOps m' t)

/-! ### Lemmas about the UTF-8 decoder -/

/-- Any fuel at least the input length computes the same result: the
decoder is insensitive to surplus fuel. -/
theorem decodeUtf8Fuel_congr :
    ∀ (n m : Nat) (l : List Nat), l.length ≤ n → l.length ≤ m →
      decodeUtf8Fuel n l = decodeUtf8Fuel m l := by
  intro n
  induction n with
  | zero =>
    intro m l hn _
    rcases l with _ | ⟨b0, rest⟩
    · cases m <;> rfl
    · simp at hn
  | succ n ih =>
    intro m l hn hm
    rcases l with _ | ⟨b0, rest⟩
    · cases m <;> rfl
    · rcases m with _ | m
      · simp at hm
      · show (match decodeChar (b0 :: rest) with
            | none => none
            | some (c, r) => (decodeUtf8Fuel n r).map (fun cs => c :: cs)) =
          (match decodeChar (b0 :: rest) with
            | none => none
            | some (c, r) => (decodeUtf8Fuel m r).map (fun cs => c :: cs))
        rcases hd : decodeChar (b0 :: rest) with _ | ⟨c, r⟩
        · rfl
        · have hlt := decodeChar_length_lt _ _ _ hd
          simp only [List.length_cons] at hlt hn hm
          dsimp only
          rw [ih m r (by omega) (by omega)]

/-- Computation of `decodeUtf8` on the empty sequence. -/
theorem decodeUtf8_nil : decodeUtf8 [] = some [] := rfl

/-- Unfolding `decodeUtf8` through one successful decoding step. -/
theorem decodeUtf8_step (l : List Nat) (c : Nat) (r : List Nat)
    (h : decodeChar l = some (c, r)) :
    decodeUtf8 l = (decodeUtf8 r).map (fun cs => c :: cs) := by
  rcases l with _ | ⟨b0, rest⟩
  · simp [decodeChar] at h
  · have hlt := decodeChar_length_lt _ _ _ h
    simp only [List.length_cons] at hlt
    show (match decodeChar (b0 :: rest) with
        | none => none
        | some (c, r) => (decodeUtf8Fuel rest.length r).map (fun cs => c :: cs)) =
      (decodeUtf8 r).map (fun cs => c :: cs)
    rw [h]
    dsimp only
    rw [decodeUtf8Fuel_congr rest.length r.length r (by omega) le_rfl]
    rfl

/-- The function `decodeUtf8` fails when the first decoding step fails on a nonempty
input. -/
theorem decodeUtf8_step_none (b0 : Nat) (rest : List Nat)
    (h : decodeChar (b0 :: rest) = none) : decodeUtf8 (b0 :: rest) = none := by
  show (match decodeChar (b0 :: rest) with
      | none => none
      | some (c, r) => (decodeUtf8Fuel rest.length r).map (fun cs => c :: cs)) = none
  rw [h]

/-- Unfolding of the continuation-byte test. -/
theorem contB_iff (b : Nat) : contB b = true ↔ 0x80 ≤ b ∧ b < 0xC0 := by
  simp [contB]

/-- The second byte of a three-byte sequence is a continuation byte. -/
theorem utf3ok_cont (b0 b1 : Nat) (h : utf3ok b0 b1 = true) : contB b1 = true := by
  unfold utf3ok at h
  split_ifs at h <;> simp_all [contB] <;> omega

/-- The second byte of a four-byte sequence is a continuation byte. -/
theorem utf4ok_cont (b0 b1 : Nat) (h : utf4ok b0 b1 = true) : contB b1 = true := by
  unfold utf4ok at h
  split_ifs at h <;> simp_all [contB] <;> omega

/-- A successful decoding step never starts at a continuation byte. -/
theorem decodeChar_head_not_cont (b0 : Nat) (t : List Nat) (c : Nat) (r : List Nat)
    (h : decodeChar (b0 :: t) = some (c, r)) : contB b0 = false := by
  by_contra hc
  simp only [Bool.not_eq_false] at hc
  rw [contB_iff] at hc
  rw [decodeChar.eq_def] at h
  dsimp only at h
  rw [if_neg (by omega), if_pos (by omega)] at h
  cases h

set_option maxHeartbeats 1000000 in
set_option maxRecDepth 4000 in
/-- A decoding step only looks at the bytes it consumes: appending more
input does not change it. -/
theorem decodeChar_append (p q : List Nat) (c : Nat) (r : List Nat)
    (h : decodeChar p = some (c, r)) : decodeChar (p ++ q) = some (c, r ++ q) := by
  rcases p with _ | ⟨b0, _ | ⟨b1, _ | ⟨b2, _ | ⟨b3, rest⟩⟩⟩⟩ <;>
    simp only [List.cons_append, List.nil_append] <;>
    rw [decodeChar.eq_def] at h <;> rw [decodeChar.eq_def] <;> dsimp only at h ⊢ <;>
    first
      | (split_ifs at h ⊢ <;> (try simp at h) <;> (try obtain ⟨rfl, rfl⟩ := h) <;> rfl)
      | simp at h

/-- Induction workhorse for `decodeUtf8_append`, with an explicit length
bound. -/
theorem decodeUtf8_append_aux (q : List Nat) :
    ∀ (n : Nat) (p : List Nat), p.length ≤ n → ∀ cp, decodeUtf8 p = some cp →
      decodeUtf8 (p ++ q) = (decodeUtf8 q).map (fun cs => cp ++ cs) := by
  intro n
  induction n with
  | zero =>
    intro p hp cp h
    rcases p with _ | ⟨b0, rest⟩
    · rw [decodeUtf8_nil] at h
      cases h
      simp
    · simp at hp
  | succ n ih =>
    intro p hp cp h
    rcases p with _ | ⟨b0, rest⟩
    · rw [decodeUtf8_nil] at h
      cases h
      simp
    · rcases hd : decodeChar (b0 :: rest) with _ | ⟨c, r⟩
      · rw [decodeUtf8_step_none _ _ hd] at h
        cases h
      · rw [decodeUtf8_step _ _ _ hd] at h
        rcases hr : decodeUtf8 r with _ | cs
        · rw [hr] at h
          cases h
        · rw [hr] at h
          simp only [Option.map_some'] at h
          cases h
          have hlt := decodeChar_length_lt _ _ _ hd
          rw [List.cons_append, decodeUtf8_step _ _ _ (by
            have := decodeChar_append (b0 :: rest) q _ _ hd
            simpa using this)]
          rw [ih r (by simp only [List.length_cons] at hp hlt; omega) cs hr]
          cases decodeUtf8 q <;> simp

/-- Decoding distributes over append when the first part is valid: the
decoder consumes `p` exactly and continues into `q`. -/
theorem decodeUtf8_append (p q : List Nat) (cp : List Nat) (h : decodeUtf8 p = some cp) :
    decodeUtf8 (p ++ q) = (decodeUtf8 q).map (fun cs => cp ++ cs) :=
  decodeUtf8_append_aux q p.length p le_rfl cp h



/-- Inversion of a successful decoding step: the consumed chunk is one of
the four sequence shapes with its byte-range constraints. -/
theorem decodeChar_shape (l : List Nat) (c : Nat) (r : List Nat)
    (h : decodeChar l = some (c, r)) :
    (∃ b0, l = b0 :: r ∧ b0 < 0x80) ∨
    (∃ b0 b1, l = b0 :: b1 :: r ∧ 0xC2 ≤ b0 ∧ b0 < 0xE0 ∧ contB b1 = true) ∨
    (∃ b0 b1 b2, l = b0 :: b1 :: b2 :: r ∧ 0xE0 ≤ b0 ∧ b0 < 0xF0 ∧
      utf3ok b0 b1 = true ∧ contB b2 = true) ∨
    (∃ b0 b1 b2 b3, l = b0 :: b1 :: b2 :: b3 :: r ∧ 0xF0 ≤ b0 ∧ b0 < 0xF5 ∧
      utf4ok b0 b1 = true ∧ contB b2 = true ∧ contB b3 = true) := by
  rcases l with _ | ⟨b0, rest⟩
  · simp [decodeChar] at h
  rw [decodeChar.eq_def] at h
  dsimp only at h
  by_cases h1 : b0 < 0x80
  · rw [if_pos h1] at h
    obtain ⟨rfl, rfl⟩ : b0 = c ∧ rest = r := by simpa using h
    exact Or.inl ⟨b0, rfl, h1⟩
  rw [if_neg h1] at h
  by_cases h2 : b0 < 0xC2
  · rw [if_pos h2] at h
    cases h
  rw [if_neg h2] at h
  by_cases h3 : b0 < 0xE0
  · rw [if_pos h3] at h
    rcases rest with _ | ⟨b1, rest1⟩
    · cases h
    · dsimp only at h
      by_cases hc : contB b1 = true
      · rw [if_pos hc] at h
        obtain ⟨rfl, rfl⟩ : (b0 - 0xC0) * 0x40 + (b1 - 0x80) = c ∧ rest1 = r := by simpa using h
        exact Or.inr (Or.inl ⟨b0, b1, rfl, by omega, h3, hc⟩)
      · rw [if_neg hc] at h
        cases h
  rw [if_neg h3] at h
  by_cases h4 : b0 < 0xF0
  · rw [if_pos h4] at h
    rcases rest with _ | ⟨b1, _ | ⟨b2, rest2⟩⟩
    · cases h
    · cases h
    · dsimp only at h
      by_cases hc : (utf3ok b0 b1 && contB b2) = true
      · rw [if_pos hc] at h
        rw [Bool.and_eq_true] at hc
        obtain ⟨rfl, rfl⟩ :
            ((b0 - 0xE0) * 0x40 + (b1 - 0x80)) * 0x40 + (b2 - 0x80) = c ∧ rest2 = r := by
          simpa using h
        exact Or.inr (Or.inr (Or.inl ⟨b0, b1, b2, rfl, by omega, h4, hc.1, hc.2⟩))
      · rw [if_neg hc] at h
        cases h
  rw [if_neg h4] at h
  by_cases h5 : b0 < 0xF5
  · rw [if_pos h5] at h
    rcases rest with _ | ⟨b1, _ | ⟨b2, _ | ⟨b3, rest3⟩⟩⟩
    · cases h
    · cases h
    · cases h
    · dsimp only at h
      by_cases hc : (utf4ok b0 b1 && contB b2 && contB b3) = true
      · rw [if_pos hc] at h
        rw [Bool.and_eq_true, Bool.and_eq_true] at hc
        obtain ⟨rfl, rfl⟩ :
            (((b0 - 0xF0) * 0x40 + (b1 - 0x80)) * 0x40 + (b2 - 0x80)) * 0x40 + (b3 - 0x80) = c ∧
              rest3 = r := by
          simpa using h
        exact Or.inr (Or.inr (Or.inr ⟨b0, b1, b2, b3, rfl, by omega, h5, hc.1.1, hc.1.2, hc.2⟩))
      · rw [if_neg hc] at h
        cases h
  rw [if_neg h5] at h
  cases h



/-- Validity is preserved through one decoding step. -/
theorem validUtf8_step_eq (l : List Nat) (c : Nat) (r : List Nat)
    (h : decodeChar l = some (c, r)) : validUtf8 l = validUtf8 r := by
  unfold validUtf8
  rw [decodeUtf8_step _ _ _ h]
  cases decodeUtf8 r <;> simp

/-- Decoding step, ASCII shape. -/
theorem decodeChar_cons1 (b0 : Nat) (xs : List Nat) (h : b0 < 0x80) :
    decodeChar (b0 :: xs) = some (b0, xs) := by
  rw [decodeChar.eq_def]
  dsimp only
  rw [if_pos h]

/-- Decoding step, two-byte shape. -/
theorem decodeChar_cons2 (b0 b1 : Nat) (xs : List Nat) (h0 : 0xC2 ≤ b0) (h0' : b0 < 0xE0)
    (h1 : contB b1 = true) :
    decodeChar (b0 :: b1 :: xs) = some ((b0 - 0xC0) * 0x40 + (b1 - 0x80), xs) := by
  rw [decodeChar.eq_def]
  dsimp only
  rw [if_neg (by omega), if_neg (by omega), if_pos h0', if_pos h1]

/-- Decoding step, three-byte shape. -/
theorem decodeChar_cons3 (b0 b1 b2 : Nat) (xs : List Nat) (h0 : 0xE0 ≤ b0) (h0' : b0 < 0xF0)
    (h1 : utf3ok b0 b1 = true) (h2 : contB b2 = true) :
    decodeChar (b0 :: b1 :: b2 :: xs) =
      some (((b0 - 0xE0) * 0x40 + (b1 - 0x80)) * 0x40 + (b2 - 0x80), xs) := by
  rw [decodeChar.eq_def]
  dsimp only
  rw [if_neg (by omega), if_neg (by omega), if_neg (by omega), if_pos h0',
    if_pos (by rw [Bool.and_eq_true]; exact ⟨h1, h2⟩)]

/-- Decoding step, four-byte shape. -/
theorem decodeChar_cons4 (b0 b1 b2 b3 : Nat) (xs : List Nat) (h0 : 0xF0 ≤ b0) (h0' : b0 < 0xF5)
    (h1 : utf4ok b0 b1 = true) (h2 : contB b2 = true) (h3 : contB b3 = true) :
    decodeChar (b0 :: b1 :: b2 :: b3 :: xs) =
      some ((((b0 - 0xF0) * 0x40 + (b1 - 0x80)) * 0x40 + (b2 - 0x80)) * 0x40 + (b3 - 0x80),
        xs) := by
  rw [decodeChar.eq_def]
  dsimp only
  rw [if_neg (by omega), if_neg (by omega), if_neg (by omega), if_neg (by omega), if_pos h0',
    if_pos (by rw [Bool.and_eq_true, Bool.and_eq_true]; exact ⟨⟨h1, h2⟩, h3⟩)]

/-- A lone multi-byte lead byte is invalid (truncated sequence). -/
theorem validUtf8_single_lead (b0 : Nat) (h0 : 0xC2 ≤ b0) (h0' : b0 < 0xF5) :
    validUtf8 [b0] = false := by
  have : decodeChar [b0] = none := by
    rw [decodeChar.eq_def]
    dsimp only
    rw [if_neg (by omega), if_neg (by omega)]
    split_ifs <;> rfl
  unfold validUtf8
  rw [decodeUtf8_step_none _ _ this]
  rfl

/-- A 3- or 4-byte lead with only one following byte is invalid. -/
theorem validUtf8_pair_lead (b0 b1 : Nat) (h0 : 0xE0 ≤ b0) (h0' : b0 < 0xF5) :
    validUtf8 [b0, b1] = false := by
  have : decodeChar [b0, b1] = none := by
    rw [decodeChar.eq_def]
    dsimp only
    rw [if_neg (by omega), if_neg (by omega), if_neg (by omega)]
    split_ifs <;> rfl
  unfold validUtf8
  rw [decodeUtf8_step_none _ _ this]
  rfl

/-- A 4-byte lead with only two following bytes is invalid. -/
theorem validUtf8_triple_lead (b0 b1 b2 : Nat) (h0 : 0xF0 ≤ b0) (h0' : b0 < 0xF5) :
    validUtf8 [b0, b1, b2] = false := by
  have : decodeChar [b0, b1, b2] = none := by
    rw [decodeChar.eq_def]
    dsimp only
    rw [if_neg (by omega), if_neg (by omega), if_neg (by omega), if_neg (by omega),
      if_pos h0']
  unfold validUtf8
  rw [decodeUtf8_step_none _ _ this]
  rfl

/-- A sequence starting at a continuation byte is invalid: UTF-8 is
self-synchronizing. -/
theorem validUtf8_cont_head (b0 : Nat) (xs : List Nat) (h : contB b0 = true) :
    validUtf8 (b0 :: xs) = false := by
  rw [contB_iff] at h
  have : decodeChar (b0 :: xs) = none := by
    rw [decodeChar.eq_def]
    dsimp only
    rw [if_neg (by omega), if_pos (by omega)]
  unfold validUtf8
  rw [decodeUtf8_step_none _ _ this]
  rfl



/-- Induction workhorse for `validUtf8_take_iff`. -/
theorem validUtf8_take_iff_aux :
    ∀ (n : Nat) (b : List Nat), b.length ≤ n → validUtf8 b = true →
      ∀ i, i < b.length → (validUtf8 (b.take i) = true ↔ contB (b.getD i 0) = false) := by
  intro n
  induction n with
  | zero =>
    intro b hb _ i hi
    omega
  | succ n ih =>
    intro b hb hv i hi
    rcases b with _ | ⟨b0, rest⟩
    · simp at hi
    rcases hd : decodeChar (b0 :: rest) with _ | ⟨c, r⟩
    · rw [validUtf8, decodeUtf8_step_none _ _ hd] at hv
      cases hv
    have hvr : validUtf8 r = true := by
      rw [validUtf8_step_eq _ _ _ hd] at hv
      exact hv
    rcases decodeChar_shape _ _ _ hd with
        ⟨a0, heq, ha⟩ | ⟨a0, a1, heq, ha, ha', hc1⟩ |
        ⟨a0, a1, a2, heq, ha, ha', h3, hc2⟩ | ⟨a0, a1, a2, a3, heq, ha, ha', h4, hc2, hc3⟩ <;>
      rw [heq] at hb hi ⊢
    · -- one-byte chunk: b = a0 :: r
      rcases i with _ | j
      · simp only [List.take_zero, List.getD_cons_zero]
        constructor
        · intro _
          simp [contB]
          omega
        · intro _
          rw [validUtf8, decodeUtf8_nil]
          rfl
      · simp only [List.take_succ_cons, List.getD_cons_succ]
        have hstep : validUtf8 (a0 :: List.take j r) = validUtf8 (List.take j r) :=
          validUtf8_step_eq _ _ _ (decodeChar_cons1 a0 _ ha)
        rw [hstep]
        exact ih r (by simp at hb; omega) hvr j (by simp at hi; omega)
    · -- two-byte chunk: b = a0 :: a1 :: r
      rcases i with _ | _ | j
      · simp only [List.take_zero, List.getD_cons_zero]
        constructor
        · intro _
          simp [contB]
          omega
        · intro _
          rw [validUtf8, decodeUtf8_nil]
          rfl
      · simp only [List.take_succ_cons, List.take_zero, List.getD_cons_succ,
          List.getD_cons_zero]
        rw [validUtf8_single_lead a0 (by omega) (by omega)]
        simp [hc1]
      · simp only [List.take_succ_cons, List.getD_cons_succ]
        have hstep : validUtf8 (a0 :: a1 :: List.take j r) = validUtf8 (List.take j r) :=
          validUtf8_step_eq _ _ _ (decodeChar_cons2 a0 a1 _ ha ha' hc1)
        rw [hstep]
        exact ih r (by simp at hb; omega) hvr j (by simp at hi; omega)
    · -- three-byte chunk
      rcases i with _ | _ | _ | j
      · simp only [List.take_zero, List.getD_cons_zero]
        constructor
        · intro _
          simp [contB]
          omega
        · intro _
          rw [validUtf8, decodeUtf8_nil]
          rfl
      · simp only [List.take_succ_cons, List.take_zero, List.getD_cons_succ,
          List.getD_cons_zero]
        rw [validUtf8_single_lead a0 (by omega) (by omega)]
        simp [utf3ok_cont _ _ h3]
      · simp only [List.take_succ_cons, List.take_zero, List.getD_cons_succ,
          List.getD_cons_zero]
        rw [validUtf8_pair_lead a0 a1 (by omega) (by omega)]
        simp [hc2]
      · simp only [List.take_succ_cons, List.getD_cons_succ]
        have hstep : validUtf8 (a0 :: a1 :: a2 :: List.take j r) = validUtf8 (List.take j r) :=
          validUtf8_step_eq _ _ _ (decodeChar_cons3 a0 a1 a2 _ ha ha' h3 hc2)
        rw [hstep]
        exact ih r (by simp at hb; omega) hvr j (by simp at hi; omega)
    · -- four-byte chunk
      rcases i with _ | _ | _ | _ | j
      · simp only [List.take_zero, List.getD_cons_zero]
        constructor
        · intro _
          simp [contB]
          omega
        · intro _
          rw [validUtf8, decodeUtf8_nil]
          rfl
      · simp only [List.take_succ_cons, List.take_zero, List.getD_cons_succ,
          List.getD_cons_zero]
        rw [validUtf8_single_lead a0 (by omega) (by omega)]
        simp [utf4ok_cont _ _ h4]
      · simp only [List.take_succ_cons, List.take_zero, List.getD_cons_succ,
          List.getD_cons_zero]
        rw [validUtf8_pair_lead a0 a1 (by omega) (by omega)]
        simp [hc2]
      · simp only [List.take_succ_cons, List.take_zero, List.getD_cons_succ,
          List.getD_cons_zero]
        rw [validUtf8_triple_lead a0 a1 a2 (by omega) (by omega)]
        simp [hc3]
      · simp only [List.take_succ_cons, List.getD_cons_succ]
        have hstep :
            validUtf8 (a0 :: a1 :: a2 :: a3 :: List.take j r) = validUtf8 (List.take j r) :=
          validUtf8_step_eq _ _ _ (decodeChar_cons4 a0 a1 a2 a3 _ ha ha' h4 hc2 hc3)
        rw [hstep]
        exact ih r (by simp at hb; omega) hvr j (by simp at hi; omega)

/-- Character-boundary characterization: in a valid sequence, the prefix
up to `i` is valid exactly when the byte at `i` is not a continuation
byte (Rust's `str::is_char_boundary`). -/
theorem validUtf8_take_iff (b : List Nat) (hv : validUtf8 b = true) (i : Nat)
    (hi : i < b.length) :
    validUtf8 (b.take i) = true ↔ contB (b.getD i 0) = false :=
  validUtf8_take_iff_aux b.length b le_rfl hv i hi

/-- In-bounds `Bytes::slice` succeeds, shares the allocation, and reads
the expected sub-content. -/
theorem BytesV.read_slice (b : BytesV) (s e : Nat) (hwf : b.WF) (hse : s ≤ e) (he : e ≤ b.len) :
    ∃ b', b.slice s e = some b' ∧ b'.buf = b.buf ∧
      b'.read = ((b.read).drop s).take (e - s) := by
  obtain ⟨hw1, hw2⟩ := hwf
  refine ⟨⟨b.buf, b.start + s, b.start + e⟩, ?_, rfl, ?_⟩
  · unfold BytesV.slice
    rw [if_pos ⟨hse, he⟩]
  · unfold BytesV.read
    dsimp only
    rw [List.drop_take, List.drop_drop, List.take_take]
    congr 1
    unfold BytesV.len at he
    omega

set_option maxRecDepth 8000 in
/-- The encoder's second byte satisfies the three-byte table constraint. -/
theorem utf3ok_enc (c : Nat) (h1 : 0x800 ≤ c) (h2 : c < 0x10000)
    (hs : ¬(0xD800 ≤ c ∧ c < 0xE000)) :
    utf3ok (0xE0 + c / 0x1000) (0x80 + c / 0x40 % 0x40) = true := by
  unfold utf3ok
  split_ifs with hE hD <;> simp [contB] <;> omega

set_option maxRecDepth 8000 in
/-- The encoder's second byte satisfies the four-byte table constraint. -/
theorem utf4ok_enc (c : Nat) (h1 : 0x10000 ≤ c) (h2 : c < 0x110000) :
    utf4ok (0xF0 + c / 0x40000) (0x80 + c / 0x1000 % 0x40) = true := by
  unfold utf4ok
  split_ifs with hE hD <;> simp [contB] <;> omega

set_option maxRecDepth 8000 in
/-- Decoding inverts encoding of a single scalar value. -/
theorem decodeChar_encodeChar (c : Nat) (hc : IsScalar c) (rest : List Nat) :
    decodeChar (encodeChar c ++ rest) = some (c, rest) := by
  obtain ⟨hlt, hsur⟩ := hc
  unfold encodeChar
  split_ifs with h1 h2 h3
  · rw [List.cons_append, List.nil_append, decodeChar_cons1 _ _ h1]
  · rw [List.cons_append, List.cons_append, List.nil_append,
      decodeChar_cons2 _ _ _ (by omega) (by omega) (by simp [contB]; omega)]
    congr 2
    omega
  · rw [List.cons_append, List.cons_append, List.cons_append, List.nil_append,
      decodeChar_cons3 _ _ _ _ (by omega) (by omega)
        (utf3ok_enc c (by omega) (by omega) hsur) (by simp [contB]; omega)]
    congr 2
    omega
  · rw [List.cons_append, List.cons_append, List.cons_append, List.cons_append,
      List.nil_append,
      decodeChar_cons4 _ _ _ _ _ (by omega) (by omega)
        (utf4ok_enc c (by omega) (by omega)) (by simp [contB]; omega) (by simp [contB]; omega)]
    congr 2
    omega

/-- Decoding inverts encoding of a whole sequence of scalar values. -/
theorem decodeUtf8_encodeUtf8 (s : List Nat) (hs : ∀ c ∈ s, IsScalar c) :
    decodeUtf8 (encodeUtf8 s) = some s := by
  induction s with
  | nil =>
    rw [encodeUtf8]
    simpa using decodeUtf8_nil
  | cons c t ih =>
    have : encodeUtf8 (c :: t) = encodeChar c ++ encodeUtf8 t := by
      unfold encodeUtf8
      simp
    rw [this, decodeUtf8_step _ _ _ (decodeChar_encodeChar c (hs c (by simp)) _),
      ih (fun x hx => hs x (by simp [hx]))]
    rfl

/-- A well-formed window reads exactly `len` bytes. -/
theorem read_length (b : BytesV) (hwf : b.WF) : b.read.length = b.len := by
  obtain ⟨h1, h2⟩ := hwf
  unfold BytesV.read BytesV.len
  simp
  omega

/-- C3: `Chars::from_bytes(b)` returns `Ok` iff `b` is valid UTF-8, and on
success the resulting view's text content (its `str` interpretation)
equals the direct UTF-8 decoding of `b` (the returned view holds the very
same buffer, so its decoding is the decoding of `b`, and it is defined). -/
theorem chars_from_bytes_correct (b : BytesV) :
    ((∃ c, Chars.from_bytes b = Except.ok c) ↔ validUtf8 b.read = true) ∧
    (∀ c, Chars.from_bytes b = Except.ok c →
      c.text = decodeUtf8 b.read ∧ ∃ cs, c.text = some cs) := by
  unfold Chars.from_bytes
  by_cases hv : validUtf8 b.read = true
  · rw [if_pos hv]
    refine ⟨⟨fun _ => hv, fun _ => ⟨⟨b⟩, rfl⟩⟩, ?_⟩
    rintro c hc
    cases hc
    refine ⟨rfl, ?_⟩
    have := hv
    unfold validUtf8 at this
    rw [Option.isSome_iff_exists] at this
    exact this
  · rw [if_neg hv]
    constructor
    · constructor
      · rintro ⟨c, hc⟩
        cases hc
      · intro h
        exact absurd h hv
    · rintro c hc
      cases hc

/-- C8: converting a string into a `Chars` view (`From<String>`) and back
into an owned string (`Into<String>`) yields the string unchanged.  A Rust
`String` is modelled as its list of Unicode scalar values. -/
theorem chars_string_roundtrip (s : List Nat) (hs : ∀ c ∈ s, IsScalar c) :
    Chars.intoString (Chars.fromString s) = some s := by
  show decodeUtf8 ((BytesV.ofList (encodeUtf8 s)).read) = some s
  have hread : (BytesV.ofList (encodeUtf8 s)).read = encodeUtf8 s := by
    unfold BytesV.ofList BytesV.read
    simp
  rw [hread]
  exact decodeUtf8_encodeUtf8 s hs

/-- Witness for C8 at a concrete three-character string. -/
theorem chars_string_roundtrip_witness :
    Chars.intoString (Chars.fromString [0x61, 0xE9, 0x4E2D]) = some [0x61, 0xE9, 0x4E2D] :=
  chars_string_roundtrip [0x61, 0xE9, 0x4E2D] (by decide)

/-- C9: `clear` leaves the view empty and only replaces the view's own
handle: the shared allocation is untouched, so any other view over the
same allocation (a clone, or a `byte_slice`, which shares the allocation
by the last conjunct) still reads its bytes and text unchanged out of the
post-`clear` allocation. -/
theorem chars_clear_frame (v w : Chars) (hshare : w.bytes.buf = v.bytes.buf) :
    (v.clear).len = 0 ∧ (v.clear).is_empty = true ∧
    (v.clear).bytes.buf = v.bytes.buf ∧
    (((v.clear).bytes.buf.drop w.bytes.start).take (w.bytes.stop - w.bytes.start) =
      w.bytes.read) ∧
    decodeUtf8 (((v.clear).bytes.buf.drop w.bytes.start).take
        (w.bytes.stop - w.bytes.start)) = w.text ∧
    (∀ s e w', Chars.byte_slice v s e = some w' → w'.bytes.buf = v.bytes.buf) := by
  refine ⟨?_, ?_, rfl, ?_, ?_, ?_⟩
  · show v.bytes.start - v.bytes.start = 0
    omega
  · show decide ((v.clear).bytes.len = 0) = true
    have : (v.clear).bytes.len = 0 := by
      show v.bytes.start - v.bytes.start = 0
      omega
    rw [this]
    rfl
  · show ((v.bytes.buf.drop w.bytes.start).take (w.bytes.stop - w.bytes.start)) = w.bytes.read
    rw [← hshare]
    rfl
  · show decodeUtf8 ((v.bytes.buf.drop w.bytes.start).take (w.bytes.stop - w.bytes.start)) =
      w.text
    rw [← hshare]
    rfl
  · intro s e w' hw'
    unfold Chars.byte_slice BytesV.slice at hw'
    split_ifs at hw' with hc
    · simp only [Option.map_some'] at hw'
      cases hw'
      rfl
    · simp at hw'

/-- Witness for C9: clearing a view over `\x22ab\x22 ` while a sub-view reads
`\x22b\x22`. -/
theorem chars_clear_frame_witness :
    (Chars.clear ⟨⟨[0x61, 0x62], 0, 2⟩⟩).len = 0 ∧
    (Chars.clear ⟨⟨[0x61, 0x62], 0, 2⟩⟩).is_empty = true ∧
    (Chars.clear ⟨⟨[0x61, 0x62], 0, 2⟩⟩).bytes.buf = (⟨⟨[0x61, 0x62], 0, 2⟩⟩ : Chars).bytes.buf ∧
    ((((Chars.clear ⟨⟨[0x61, 0x62], 0, 2⟩⟩).bytes.buf.drop 1).take (2 - 1)) =
      BytesV.read ⟨[0x61, 0x62], 1, 2⟩) ∧
    decodeUtf8 (((Chars.clear ⟨⟨[0x61, 0x62], 0, 2⟩⟩).bytes.buf.drop 1).take (2 - 1)) =
      Chars.text ⟨⟨[0x61, 0x62], 1, 2⟩⟩ ∧
    (∀ s e w', Chars.byte_slice ⟨⟨[0x61, 0x62], 0, 2⟩⟩ s e = some w' →
      w'.bytes.buf = (⟨⟨[0x61, 0x62], 0, 2⟩⟩ : Chars).bytes.buf) :=
  chars_clear_frame ⟨⟨[0x61, 0x62], 0, 2⟩⟩ ⟨⟨[0x61, 0x62], 1, 2⟩⟩ rfl



/-- Witness for C3 at the concrete buffer `\x22a\x22`. -/
theorem chars_from_bytes_correct_witness :
    (∃ c, Chars.from_bytes (BytesV.ofList [0x61]) = Except.ok c) ∧
    Chars.text ⟨BytesV.ofList [0x61]⟩ = decodeUtf8 (BytesV.ofList [0x61]).read :=
  ⟨(chars_from_bytes_correct (BytesV.ofList [0x61])).1.mpr (by decide),
   ((chars_from_bytes_correct (BytesV.ofList [0x61])).2 ⟨BytesV.ofList [0x61]⟩ (by decide)).1⟩

/-- C7: on a valid view, for an in-bounds byte range whose endpoints lie
on character boundaries (prefix up to the endpoint is valid UTF-8, the
standard boundary characterization per `validUtf8_take_iff`),
`byte_slice` and `checked_byte_slice` return the same view — hence
identical text content — and `checked_byte_slice` succeeds; a nonempty
in-bounds range with an endpoint off a character boundary (splitting a
multi-byte character) makes `checked_byte_slice` return an error. -/
theorem chars_byte_slice_agree (v : Chars) (s e : Nat) (hv : v.Valid)
    (hse : s ≤ e) (he : e ≤ v.len) :
    (validUtf8 (v.bytes.read.take s) = true → validUtf8 (v.bytes.read.take e) = true →
      ∃ w, v.byte_slice s e = some w ∧ v.checked_byte_slice s e = some (Except.ok w) ∧
        w.bytes.read = (v.bytes.read.drop s).take (e - s)) ∧
    (s < e →
      ¬(validUtf8 (v.bytes.read.take s) = true ∧ validUtf8 (v.bytes.read.take e) = true) →
      v.checked_byte_slice s e = some (Except.error Utf8Error.invalid)) := by
  obtain ⟨hwf, hvalid⟩ := hv
  obtain ⟨b', hsl, hbuf, hread⟩ := BytesV.read_slice v.bytes s e hwf hse he
  have hdecomp : v.bytes.read.take e =
      v.bytes.read.take s ++ (v.bytes.read.drop s).take (e - s) := by
    rw [← List.take_add]
    congr 1
    omega
  constructor
  · intro hs' he'
    refine ⟨⟨b'⟩, ?_, ?_, hread⟩
    · unfold Chars.byte_slice
      rw [hsl]
      rfl
    · unfold Chars.checked_byte_slice
      rw [hsl]
      have hvslice : validUtf8 b'.read = true := by
        unfold validUtf8 at hs' he' ⊢
        rw [Option.isSome_iff_exists] at hs'
        obtain ⟨cp, hcp⟩ := hs'
        rw [hdecomp, decodeUtf8_append _ _ _ hcp] at he'
        rw [hread]
        cases hx : decodeUtf8 ((v.bytes.read.drop s).take (e - s))
        · rw [hx] at he'
          simp at he'
        · rfl
      show Option.map Chars.from_bytes (some b') = some (Except.ok ⟨b'⟩)
      rw [Option.map_some']
      unfold Chars.from_bytes
      rw [hvslice]
      rfl
  · intro hlt hnb
    have hvslice : validUtf8 b'.read = false := by
      rw [hread]
      by_cases hs' : validUtf8 (v.bytes.read.take s) = true
      · have he' : ¬ validUtf8 (v.bytes.read.take e) = true := fun h => hnb ⟨hs', h⟩
        rw [Bool.eq_false_iff]
        intro hsl'
        apply he'
        unfold validUtf8 at hs' hsl' ⊢
        rw [Option.isSome_iff_exists] at hs' hsl'
        obtain ⟨cp, hcp⟩ := hs'
        obtain ⟨cs, hcs⟩ := hsl'
        rw [hdecomp, decodeUtf8_append _ _ _ hcp, hcs]
        rfl
      · -- the start of the range is inside a multi-byte character:
        -- the corresponding byte is a continuation byte
        have hslen : v.bytes.read.length = v.len := read_length v.bytes hwf
        have hsb : s < v.bytes.read.length := by omega
        have hcont : contB (v.bytes.read.getD s 0) = true := by
          rcases hx : contB (v.bytes.read.getD s 0) with _ | _
          · exact absurd ((validUtf8_take_iff v.bytes.read hvalid s hsb).mpr hx) hs'
          · rfl
        have hhead : (v.bytes.read.drop s).take (e - s) =
            v.bytes.read.getD s 0 :: (v.bytes.read.drop (s + 1)).take (e - s - 1) := by
          obtain ⟨k, hk⟩ : ∃ k, e - s = k + 1 := ⟨e - s - 1, by omega⟩
          rw [List.drop_eq_getElem_cons hsb, List.getD_eq_getElem _ _ hsb, hk,
            List.take_succ_cons]
          simp
        rw [hhead]
        exact validUtf8_cont_head _ _ hcont
    unfold Chars.checked_byte_slice
    rw [hsl]
    show Option.map Chars.from_bytes (some b') = some (Except.error Utf8Error.invalid)
    rw [Option.map_some']
    unfold Chars.from_bytes
    rw [hvslice]
    rfl

/-- Witness for C7 on the view `\x22a\u00e9\x22` (bytes `61 C3 A9`): slicing at
`1..3` is aligned and agrees; slicing at `1..2` splits the two-byte
character and fails validation. -/
theorem chars_byte_slice_agree_witness :
    (∃ w, Chars.byte_slice ⟨⟨[0x61, 0xC3, 0xA9], 0, 3⟩⟩ 1 3 = some w ∧
      Chars.checked_byte_slice ⟨⟨[0x61, 0xC3, 0xA9], 0, 3⟩⟩ 1 3 = some (Except.ok w) ∧
      w.bytes.read =
        ((BytesV.read ⟨[0x61, 0xC3, 0xA9], 0, 3⟩).drop 1).take (3 - 1)) ∧
    Chars.checked_byte_slice ⟨⟨[0x61, 0xC3, 0xA9], 0, 3⟩⟩ 1 2 =
      some (Except.error Utf8Error.invalid) :=
  ⟨(chars_byte_slice_agree ⟨⟨[0x61, 0xC3, 0xA9], 0, 3⟩⟩ 1 3 (by decide) (by decide)
      (by decide)).1 (by decide) (by decide),
   (chars_byte_slice_agree ⟨⟨[0x61, 0xC3, 0xA9], 0, 3⟩⟩ 1 2 (by decide) (by decide)
      (by decide)).2 (by decide) (by decide)⟩

/-- C10: a byte range extending past the view's length makes both
`byte_slice` and `checked_byte_slice` panic (`none`), and an `Err` from
`checked_byte_slice` can only arise from failed UTF-8 validation of an
in-bounds slice. -/
theorem chars_slice_oob_panic (v : Chars) (s e : Nat) (hwf : v.bytes.WF) :
    (v.len < e → v.byte_slice s e = none ∧ v.checked_byte_slice s e = none) ∧
    (∀ er, v.checked_byte_slice s e = some (Except.error er) →
      s ≤ e ∧ e ≤ v.len ∧ validUtf8 ((v.bytes.read.drop s).take (e - s)) = false) := by
  constructor
  · intro hoob
    have hnone : v.bytes.slice s e = none := by
      unfold BytesV.slice
      rw [if_neg]
      intro ⟨_, h2⟩
      exact absurd h2 (by unfold Chars.len at hoob; omega)
    constructor
    · unfold Chars.byte_slice
      rw [hnone]
      rfl
    · unfold Chars.checked_byte_slice
      rw [hnone]
      rfl
  · intro er her
    unfold Chars.checked_byte_slice at her
    rcases hsl : v.bytes.slice s e with _ | b'
    · rw [hsl] at her
      cases her
    · rw [hsl] at her
      simp only [Option.map_some'] at her
      have hcond : s ≤ e ∧ e ≤ v.bytes.len := by
        by_contra hc
        unfold BytesV.slice at hsl
        rw [if_neg hc] at hsl
        cases hsl
      obtain ⟨b'', hsl', hbuf, hread⟩ := BytesV.read_slice v.bytes s e hwf hcond.1 hcond.2
      rw [hsl] at hsl'
      cases hsl'
      refine ⟨hcond.1, hcond.2, ?_⟩
      rw [← hread]
      unfold Chars.from_bytes at her
      split_ifs at her with hvb
      · cases her
      · exact Bool.eq_false_iff.mpr hvb

/-- Witness for C10: an out-of-bounds range on `\x22a\x22` panics, and the
in-bounds splitting range on `\x22\u00e9\x22` yields a validation failure. -/
theorem chars_slice_oob_panic_witness :
    (Chars.byte_slice ⟨⟨[0x61], 0, 1⟩⟩ 0 2 = none ∧
      Chars.checked_byte_slice ⟨⟨[0x61], 0, 1⟩⟩ 0 2 = none) ∧
    (0 ≤ 1 ∧ 1 ≤ Chars.len ⟨⟨[0xC3, 0xA9], 0, 2⟩⟩ ∧
      validUtf8 (((BytesV.read ⟨[0xC3, 0xA9], 0, 2⟩).drop 0).take (1 - 0)) = false) :=
  ⟨(chars_slice_oob_panic ⟨⟨[0x61], 0, 1⟩⟩ 0 2 (by decide)).1 (by decide),
   (chars_slice_oob_panic ⟨⟨[0xC3, 0xA9], 0, 2⟩⟩ 0 1 (by decide)).2 Utf8Error.invalid
     (by decide)⟩

/-! ### Claim theorems for the variant map container -/

/-- Inserting twice under the same key is the same as inserting the last
value once (the association-list model of `HashMap::insert`). -/
theorem hmInsert_hmInsert {κ : Type} [DecidableEq κ] (k : κ) (v1 v2 : ReflectValueBox)
    (l : List (κ × ReflectValueBox)) :
    hmInsert k v2 (hmInsert k v1 l) = hmInsert k v2 l := by
  induction l with
  | nil => simp [hmInsert]
  | cons p t ih =>
    obtain ⟨k', v'⟩ := p
    by_cases hk : k = k'
    · simp [hmInsert, hk]
    · simp [hmInsert, hk, ih]

/-- C1: `DynamicMap::insert` panics (returns `none` in the embedding)
exactly when the value's tag differs from the container's declared value
type or the key's tag does not match the active key-type variant; when
both tags match it completes without panicking. -/
theorem dynamicmap_insert_panics_iff (m : DynamicMap) (key : ReflectValueBoxHashable)
    (value : ReflectValueBox) :
    (m.insert key value).isSome = true ↔
      (value.get_type = m.value ∧ key.get_type = m.key_type) := by
  obtain ⟨val, maps⟩ := m
  unfold DynamicMap.insert
  by_cases hv : value.get_type = val
  · cases maps <;> cases key <;>
      simp [hv, DynamicMap.key_type, Maps.key_type, ReflectValueBoxHashable.get_type]
  · cases maps <;> cases key <;>
      simp [hv, DynamicMap.key_type, Maps.key_type, ReflectValueBoxHashable.get_type]

/-- C2: `DynamicMap::get` with a key whose runtime tag does not match the
container's key type returns `None`, for any contents; the embedded `get`
is total (the source has no panic or error path). -/
theorem dynamicmap_get_mismatch_none (m : DynamicMap) (key : ReflectValueRef)
    (h : key.get_type ≠ m.key_type) : m.get key = none := by
  obtain ⟨val, maps⟩ := m
  unfold DynamicMap.get
  cases maps <;> cases key <;>
    simp_all [DynamicMap.key_type, Maps.key_type, ReflectValueRef.get_type]

/-- Witness for C2: an integer key against a text-keyed container. -/
theorem dynamicmap_get_mismatch_none_witness :
    DynamicMap.get ⟨RuntimeTypeBox.I32, Maps.String [([0x61], ReflectValueBox.i32 5)]⟩
      (ReflectValueRef.u32 1) = none :=
  dynamicmap_get_mismatch_none ⟨RuntimeTypeBox.I32, Maps.String [([0x61], ReflectValueBox.i32 5)]⟩
    (ReflectValueRef.u32 1) (by decide)



/-- C4: `DynamicMap::insert` has upsert semantics — a second insert under
the same key replaces the first (nothing is returned, the old value is
dropped) — together with the two concrete scenarios: text-key/i32-value
upsert of `(\x22a\x22, 1)` then `(\x22a\x22, 2)` leaving one entry of value `2`, and
the u32-key/text-value scenario with `(7, \x22seven\x22)`, `(3, \x22three\x22)`,
`len = 2`, `get 7 = \x22seven\x22` (borrowed), and `clear` preserving the key
type. -/
theorem dynamicmap_insert_upsert :
    (∀ (m m1 : DynamicMap) (k : ReflectValueBoxHashable) (v1 v2 : ReflectValueBox),
      m.insert k v1 = some m1 → m1.insert k v2 = m.insert k v2) ∧
    (∃ m, ((DynamicMap.new .String .I32).bind
        (fun m0 => m0.insert (.String [0x61]) (.i32 1))).bind
        (fun m1 => m1.insert (.String [0x61]) (.i32 2)) = some m ∧
      m.len = 1 ∧ m.get (.stringV [0x61]) = some (.i32 2)) ∧
    (∃ m, ((DynamicMap.new .U32 .String).bind
        (fun m0 => m0.insert (.U32 7) (.stringV [115, 101, 118, 101, 110]))).bind
        (fun m1 => m1.insert (.U32 3) (.stringV [116, 104, 114, 101, 101])) = some m ∧
      m.len = 2 ∧ m.get (.u32 7) = some (.stringV [115, 101, 118, 101, 110]) ∧
      (m.clear).is_empty = true ∧ (m.clear).key_type = .U32) := by
  refine ⟨?_, by decide, by decide⟩
  intro m m1 k v1 v2 h
  obtain ⟨val, maps⟩ := m
  unfold DynamicMap.insert at h ⊢
  split_ifs at h with hv1
  cases maps <;> cases k <;> cases h <;>
    simp [ReflectValueBox.get_type, hmInsert_hmInsert]

/-- Witness for C4's general upsert law at a concrete container. -/
theorem dynamicmap_insert_upsert_witness :
    DynamicMap.insert ⟨RuntimeTypeBox.I32, Maps.U32 [(0, ReflectValueBox.i32 1)]⟩
        (ReflectValueBoxHashable.U32 0) (ReflectValueBox.i32 2) =
      DynamicMap.insert ⟨RuntimeTypeBox.I32, Maps.U32 []⟩
        (ReflectValueBoxHashable.U32 0) (ReflectValueBox.i32 2) :=
  dynamicmap_insert_upsert.1 ⟨RuntimeTypeBox.I32, Maps.U32 []⟩
    ⟨RuntimeTypeBox.I32, Maps.U32 [(0, ReflectValueBox.i32 1)]⟩
    (ReflectValueBoxHashable.U32 0) (ReflectValueBox.i32 1) (ReflectValueBox.i32 2) (by decide)

/-- The container returned by a successful `DynamicMap::new` is empty and
reports the construction-time types. -/
theorem dynamicmap_new_types (key value : RuntimeTypeBox) (m : DynamicMap)
    (h : DynamicMap.new key value = some m) :
    m.is_empty = true ∧ m.len = 0 ∧ m.key_type = key ∧ m.value_type = value := by
  cases key <;> cases h <;> exact ⟨rfl, rfl, rfl, rfl⟩

/-- C5: `DynamicMap::new(key, value)` panics (returns `none`) exactly when
`key` is outside the hashable subset {u32, i32, u64, i64, bool, string};
otherwise it returns an empty container whose active variant matches
`key` and whose declared value type is `value`. -/
theorem dynamicmap_new_correct (key value : RuntimeTypeBox) :
    ((DynamicMap.new key value).isNone = true ↔ DynamicMap.hashableKey key = false) ∧
    (∀ m, DynamicMap.new key value = some m →
      m.is_empty = true ∧ m.len = 0 ∧ m.key_type = key ∧ m.value_type = value) :=
  ⟨by cases key <;> simp [DynamicMap.new, DynamicMap.hashableKey],
   fun m hm => dynamicmap_new_types key value m hm⟩

/-- Witness for C5: a non-hashable key type panics; a u32 key yields an
empty u32-keyed container. -/
theorem dynamicmap_new_correct_witness :
    ((DynamicMap.new RuntimeTypeBox.F64 RuntimeTypeBox.String).isNone = true) ∧
    (DynamicMap.is_empty ⟨RuntimeTypeBox.String, Maps.U32 []⟩ = true ∧
      DynamicMap.len ⟨RuntimeTypeBox.String, Maps.U32 []⟩ = 0 ∧
      DynamicMap.key_type ⟨RuntimeTypeBox.String, Maps.U32 []⟩ = RuntimeTypeBox.U32 ∧
      DynamicMap.value_type ⟨RuntimeTypeBox.String, Maps.U32 []⟩ = RuntimeTypeBox.String) :=
  ⟨(dynamicmap_new_correct RuntimeTypeBox.F64 RuntimeTypeBox.String).1.mpr (by decide),
   (dynamicmap_new_correct RuntimeTypeBox.U32 RuntimeTypeBox.String).2
     ⟨RuntimeTypeBox.String, Maps.U32 []⟩ (by decide)⟩

/-- A successful insert never changes the reported key or value type. -/
theorem dynamicmap_insert_preserves_types (m m1 : DynamicMap) (k : ReflectValueBoxHashable)
    (v : ReflectValueBox) (h : m.insert k v = some m1) :
    m1.key_type = m.key_type ∧ m1.value_type = m.value_type := by
  obtain ⟨val, maps⟩ := m
  unfold DynamicMap.insert at h
  split_ifs at h with hv
  cases maps <;> cases k <;> cases h <;> exact ⟨rfl, rfl⟩

/-- C6: `key_type()` and `value_type()` always report the construction
arguments, and no sequence of `get`, `insert`, or `clear` operations
changes them: the active key-type variant never changes after
construction. -/
theorem dynamicmap_types_invariant (key value : RuntimeTypeBox) (m0 : DynamicMap)
    (hnew : DynamicMap.new key value = some m0) (ops : List MapOp) (m' : DynamicMap)
    (h : runOps m0 ops = some m') :
    m'.key_type = key ∧ m'.value_type = value := by
  have h0 : m0.key_type = key ∧ m0.value_type = value := by
    have := dynamicmap_new_types key value m0 hnew
    exact ⟨this.2.2.1, this.2.2.2⟩
  suffices hpres : ∀ (ops : List MapOp) (m m' : DynamicMap), runOps m ops = some m' →
      m'.key_type = m.key_type ∧ m'.value_type = m.value_type by
    obtain ⟨e1, e2⟩ := hpres ops m0 m' h
    exact ⟨e1.trans h0.1, e2.trans h0.2⟩
  intro ops
  induction ops with
  | nil =>
    intro m m' h
    cases h
    exact ⟨rfl, rfl⟩
  | cons op t ih =>
    intro m m' h
    rcases hop : runOp m op with _ | m1
    · rw [runOps, hop] at h
      cases h
    · rw [runOps, hop] at h
      simp only [Option.some_bind] at h
      have hstep : m1.key_type = m.key_type ∧ m1.value_type = m.value_type := by
        cases op with
        | getOp k =>
          cases hop
          exact ⟨rfl, rfl⟩
        | insertOp k v => exact dynamicmap_insert_preserves_types m m1 k v hop
        | clearOp =>
          cases hop
          obtain ⟨val, maps⟩ := m
          refine ⟨?_, rfl⟩
          cases maps <;> rfl
      obtain ⟨e1, e2⟩ := ih m1 m' h
      exact ⟨e1.trans hstep.1, e2.trans hstep.2⟩

/-- Witness for C6 over a concrete insert/get/clear sequence. -/
theorem dynamicmap_types_invariant_witness :
    DynamicMap.key_type ⟨RuntimeTypeBox.String, Maps.U32 []⟩ = RuntimeTypeBox.U32 ∧
    DynamicMap.value_type ⟨RuntimeTypeBox.String, Maps.U32 []⟩ = RuntimeTypeBox.String :=
  dynamicmap_types_invariant RuntimeTypeBox.U32 RuntimeTypeBox.String
    ⟨RuntimeTypeBox.String, Maps.U32 []⟩ (by decide)
    [MapOp.insertOp (ReflectValueBoxHashable.U32 1) (ReflectValueBox.stringV [0x61]),
     MapOp.getOp (ReflectValueRef.u32 1), MapOp.clearOp]
    ⟨RuntimeTypeBox.String, Maps.U32 []⟩ (by decide)

end RustProtobuf
